import Mathlib

/-!
Verification of the recording-index and range-capable playback engine
(`internal/index/index.go`, `internal/playback/log.go`,
`internal/playback/segment_fmp4_read.go`).

Each Go function relevant to the checked properties is shallowly embedded
as an executable Lean definition: machine integers become `Int`/`Nat`,
byte streams become `List Nat`, fallible operations return `Option` or a
result paired with an error flag, and file-system / network effects are
made explicit (content passed in and out, write failures supplied by an
oracle parameter).
-/

namespace MediaMTX

/-! ### Range response writer (`playback/log.go`, `writerWrapper`)

`writerWrapper` performs a two-pass byte-accounting dance: pass 1 only
accumulates `length`; pass 2 skips the first `offset` bytes and then
forwards bytes to the client, clamping against `offset2`.

The embedded state mirrors the Go struct field-for-field; the client
socket (`ctx.Writer`) is modelled by the `out` byte list plus a
`sinkFails` oracle standing for a network write error. -/

structure WW where
  length : Int
  skipped : Int
  sent : Int
  offset : Int
  offset2 : Int
  pass1 : Bool
  written : Bool
  /-- Bytes that reached the client via `ctx.Writer.Write`. -/
  out : List Nat
  deriving DecidableEq, Repr

/-- Result error of a single `Write` call: `ok` = `nil`, `eof` = `io.EOF`,
`fatal` = `ErrFatal` ("broken content size"), `sink` = an error returned
by the underlying `ctx.Writer.Write`. -/
inductive WErr where
  | ok
  | eof
  | fatal
  | sink
  deriving DecidableEq, Repr

/-- Embedding of `writerWrapper.Write` (log.go:70-124).  Returns the
updated state together with the Go return values `(n, err)`. -/
def wwWrite (sinkFails : Bool) (w : WW) (p : List Nat) : WW × Int × WErr :=
  let n : Int := p.length
  -- first pass
  if w.pass1 then ({ w with length := w.length + n }, n, .ok)
  -- second pass, write stage
  else if w.skipped ≥ w.offset then
    let w := if !w.written then { w with written := true } else w
    let bytesToWrite : Int :=
      if w.sent + n + 1 > w.offset2 then w.offset2 + 1 - w.sent else n
    let p := p.take bytesToWrite.toNat
    if sinkFails then (w, 0, .sink)
    else
      let nw : Int := p.length
      let w := { w with out := w.out ++ p, sent := w.sent + nw }
      if w.sent ≥ w.offset2 then (w, nw, .eof) else (w, nw, .ok)
  -- second pass, skip stage: skip whole buffer
  else if w.skipped + n ≤ w.offset then ({ w with skipped := w.skipped + n }, n, .ok)
  -- skip part of buffer
  else
    let bytesToSkip := w.offset - w.skipped
    let w := { w with skipped := w.skipped + bytesToSkip }
    if w.skipped > w.offset then (w, 0, .fatal)
    else
      let w := if !w.written then { w with written := true } else w
      if sinkFails then (w, 0, .sink)
      else
        let tail := p.drop bytesToSkip.toNat
        ({ w with out := w.out ++ tail }, (tail.length : Int), .ok)

/-- Initial pass-2 writer state for a request with window `[o, o2]`,
as built by `Server.onGet` before the second `seekAndMux` call. -/
def wwPass2 (o o2 : Int) : WW :=
  { length := 0, skipped := 0, sent := 0, offset := o, offset2 := o2,
    pass1 := false, written := true, out := [] }

/-- The body used for the range-fidelity check: 300 distinct bytes. -/
def body300 : List Nat := List.range 300

/-- `math.MaxInt` on a 64-bit platform, the `offset2` of an unranged request. -/
def goMaxInt : Int := 9223372036854775807

/-- C10: the fatal "broken content size" branch of `writerWrapper.Write` is
unreachable.  In the partial-skip branch `skipped` is incremented by exactly
`offset - skipped`, so the subsequent `skipped > offset` test is always false
and `Write` never returns `ErrFatal`, for every input buffer and every writer
state (reachable or not), whether or not the client-socket write fails. -/
theorem c10_write_never_fatal (sf : Bool) (w : WW) (p : List Nat) :
    (wwWrite sf w p).2.2 ≠ WErr.fatal := by
  unfold wwWrite
  dsimp only
  repeat' split
  all_goals simp_all

set_option maxRecDepth 4000 in
/-- C1 fails on the code: for the range request `bytes=100-199` against a
300-byte body delivered in one buffer, pass 2 sends bytes `[100,300)` of the
unranged body (200 bytes) to the client instead of bytes `[100,200)`.
The partial-skip branch writes the whole tail of the buffer without clamping
at `offset2` and without counting it toward `sent`, so bytes past position
`offset2` are sent and the claimed window equality fails. -/
theorem c1_range_window_violated :
    (wwWrite false (wwPass2 0 goMaxInt) body300).1.out = body300
    ∧ (wwWrite false (wwPass2 100 199) body300).1.out = body300.drop 100
    ∧ (wwWrite false (wwPass2 100 199) body300).1.out
        ≠ ((wwWrite false (wwPass2 0 goMaxInt) body300).1.out.drop 100).take 100 := by
  refine ⟨by decide, by decide, ?_⟩
  intro h
  have hlen := congrArg List.length h
  revert hlen
  decide


/-! ### Sidecar codec (`index.go`, `readIndexFile` / `writeIndex`)

Byte streams are `List Nat` (each element one byte).  The `time.Time`
binary format of the Go standard library is embedded field-for-field:
version byte (1 = 15-byte encoding, 2 = 16-byte with a seconds-precision
zone offset), 8-byte big-endian seconds, 4-byte big-endian nanoseconds,
2-byte big-endian zone-offset minutes, optional 1-byte zone-offset
seconds. -/

def fromBytesBE (bs : List Nat) : Nat := bs.foldl (fun a b => a * 256 + b) 0

def natToBytesBE : Nat → Nat → List Nat
  | 0, _ => []
  | w + 1, n => natToBytesBE w (n / 256) ++ [n % 256]

def intToBytesBE (w : Nat) (i : Int) : List Nat :=
  natToBytesBE w (i % (2 ^ (8 * w))).toNat

def sintOfBytesBE (bs : List Nat) : Int :=
  if fromBytesBE bs < 2 ^ (8 * bs.length - 1) then (fromBytesBE bs : Int)
  else (fromBytesBE bs : Int) - 2 ^ (8 * bs.length)

theorem length_natToBytesBE (w n : Nat) : (natToBytesBE w n).length = w := by
  induction w generalizing n with
  | zero => rfl
  | succ w ih => simp [natToBytesBE, ih]

theorem fromBytesBE_natToBytesBE (w n : Nat) :
    fromBytesBE (natToBytesBE w n) = n % 256 ^ w := by
  induction w generalizing n with
  | zero => simp [natToBytesBE, fromBytesBE, Nat.mod_one]
  | succ w ih =>
    have hstep : fromBytesBE (natToBytesBE w (n / 256) ++ [n % 256])
        = fromBytesBE (natToBytesBE w (n / 256)) * 256 + n % 256 := by
      simp [fromBytesBE, List.foldl_append]
    rw [natToBytesBE, hstep, ih]
    rw [pow_succ, Nat.mul_comm (256 ^ w) 256, Nat.mod_mul]
    ring

theorem length_intToBytesBE (w : Nat) (i : Int) : (intToBytesBE w i).length = w :=
  length_natToBytesBE _ _

theorem sintOfBytesBE_intToBytesBE (w : Nat) (hw : 0 < w) (i : Int)
    (h1 : -(2 ^ (8 * w - 1)) ≤ i) (h2 : i < 2 ^ (8 * w - 1)) :
    sintOfBytesBE (intToBytesBE w i) = i := by
  have h256 : (256 : Nat) ^ w = 2 ^ (8 * w) := by
    rw [show (256 : Nat) = 2 ^ 8 from rfl, ← pow_mul]
  have hpos : (0 : Int) < 2 ^ (8 * w) := by positivity
  have hhalfpos : (0 : Int) < 2 ^ (8 * w - 1) := by positivity
  have hhalf : (2 : Int) ^ (8 * w - 1) * 2 = 2 ^ (8 * w) := by
    rw [← pow_succ]; congr 1; omega
  have hmodnn : (0 : Int) ≤ i % 2 ^ (8 * w) := Int.emod_nonneg i (by positivity)
  have hmodlt : i % 2 ^ (8 * w) < 2 ^ (8 * w) := Int.emod_lt_of_pos i hpos
  have hle : (2 : Int) ^ (8 * w - 1) ≤ 2 ^ (8 * w) := by linarith
  have hmod : (i % 2 ^ (8 * w) : Int) = if 0 ≤ i then i else i + 2 ^ (8 * w) := by
    split
    · exact Int.emod_eq_of_lt ‹_› (lt_of_lt_of_le h2 hle)
    · have hsh : (i + 2 ^ (8 * w)) % 2 ^ (8 * w) = i % 2 ^ (8 * w) := by
        have hsh0 := Int.add_mul_emod_self_left (a := i) (b := 2 ^ (8 * w)) (c := 1)
        rwa [mul_one] at hsh0
      rw [← hsh]
      exact Int.emod_eq_of_lt (by linarith) (by linarith [lt_of_not_le ‹¬0 ≤ i›])
  have hcast1 : ((2 ^ (8 * w - 1) : Nat) : Int) = 2 ^ (8 * w - 1) := by push_cast; ring
  have hcast2 : ((2 ^ (8 * w) : Nat) : Int) = 2 ^ (8 * w) := by push_cast; ring
  unfold sintOfBytesBE intToBytesBE
  rw [length_natToBytesBE, fromBytesBE_natToBytesBE]
  have hlt' : (i % 2 ^ (8 * w)).toNat < 256 ^ w := by rw [h256]; omega
  rw [Nat.mod_eq_of_lt hlt']
  by_cases hi : 0 ≤ i
  · rw [if_pos hi] at hmod
    split <;> omega
  · rw [if_neg hi] at hmod
    split <;> omega


/-- Wall-clock component of a Go `time.Time` after `Truncate(0)` (monotonic
reading stripped, as done by `index.Update` and `scanSegment`): `sec` is the
signed 64-bit seconds field of the internal epoch, `nsec` the nanoseconds in
`[0, 1e9)`, `zoneOff` the zone offset east of UTC in seconds, and `isUTC`
whether the location is the UTC location (encoded as offset-minutes `-1`).
Location identity beyond what the binary format stores is irrelevant here:
all comparisons below are at the instant `(sec, nsec)` plus raw offset. -/
structure GoTime where
  sec : Int
  nsec : Int
  zoneOff : Int
  isUTC : Bool
  deriving DecidableEq, Repr

/-- Embedding of `time.Time.MarshalBinary`: 15 bytes for version 1,
16 bytes for version 2 (zone offset not a whole number of minutes);
fails when the offset-minutes do not fit `int16` or equal `-1`.
Go `%` and `/` truncate toward zero, hence `Int.tmod` / `Int.tdiv`. -/
def marshalTime (t : GoTime) : Option (List Nat) :=
  let core := intToBytesBE 8 t.sec ++ intToBytesBE 4 t.nsec
  if t.isUTC then some (1 :: (core ++ intToBytesBE 2 (-1)))
  else
    let offSec := t.zoneOff.tmod 60
    let offMin := t.zoneOff.tdiv 60
    if offMin < -32768 ∨ offMin = -1 ∨ offMin > 32767 then none
    else if offSec ≠ 0 then
      -- `byte(int8(offSec))` is the 1-byte two's-complement encoding
      some (2 :: (core ++ intToBytesBE 2 offMin ++ intToBytesBE 1 offSec))
    else some (1 :: (core ++ intToBytesBE 2 offMin))

/-- Embedding of `time.Time.UnmarshalBinary`: checks the version byte and
exact length, then decodes seconds, nanoseconds and the zone offset.  The
resulting location is UTC exactly when the decoded offset is `-60` seconds
(`-1` minutes); the `Local`-zone special case only renames the location and
does not change the instant, so it is not distinguished here. -/
def unmarshalTime (bs : List Nat) : Option GoTime :=
  match bs with
  | [] => none
  | v :: rest =>
    if v ≠ 1 ∧ v ≠ 2 then none
    else if rest.length ≠ (if v = 2 then 15 else 14) then none
    else
      let sec := sintOfBytesBE (rest.take 8)
      let nsec := sintOfBytesBE ((rest.drop 8).take 4)
      let off := sintOfBytesBE ((rest.drop 12).take 2) * 60 +
        (if v = 2 then sintOfBytesBE ((rest.drop 14).take 1) else 0)
      some { sec := sec, nsec := nsec, zoneOff := off, isUTC := off = -60 }

/-- The in-memory index entry (`indexEntry` in index.go). -/
structure IndexEntry where
  time : GoTime
  offset : Int
  deriving DecidableEq, Repr

/-- The 16-byte slot that `writeIndex` emits for one timestamp:
`MarshalBinary` output padded with one zero byte when it is 15 bytes long. -/
def timeSlot (t : GoTime) : List Nat :=
  let b := (marshalTime t).getD []
  if b.length = 15 then b ++ [0] else b

/-- The bytes `writeIndex` emits for one entry: the timestamp slot followed
by the 8-byte big-endian signed offset (`binary.Write BigEndian`). -/
def recordBytes (e : IndexEntry) : List Nat := timeSlot e.time ++ intToBytesBE 8 e.offset

/-- The fixed 16-byte header `writeIndex` emits: magic `'S','I','D','X'`,
version byte 1, eleven reserved zero bytes. -/
def header16 : List Nat := [83, 73, 68, 88, 1, 0, 0, 0, 0, 0, 0, 0, 0, 0, 0, 0]

/-- Outcome of the record-reading loop of `readIndexFile`: `keep l` when the
loop ended with `io.EOF` / `io.ErrUnexpectedEOF` (entries kept), `dropAll`
when a 16-byte slot read returned 1-15 bytes with a nil error, after which
the function returns a nil entry list and a nil error. -/
inductive ReadTail where
  | keep (l : List IndexEntry)
  | dropAll
  deriving DecidableEq, Repr

/-- The record loop of `readIndexFile` (index.go:124-146) over the bytes
that follow the header.  The loop consumes at least 24 bytes per iteration,
so `bs.length` fuel always suffices; the explicit fuel keeps the definition
structurally recursive (kernel-evaluable).  The `fuel = 0` non-empty case
is unreachable whenever `bs.length ≤ fuel`. -/
def readRecordsAux : Nat → List Nat → Option ReadTail
  | _, [] => some (.keep [])
  | 0, _ :: _ => some .dropAll
  | fuel + 1, bs =>
    if bs.length < 16 then some .dropAll
    else
      let b := bs.take 16
      let rest := bs.drop 16
      let tdec := if b.getD 0 0 = 1 then unmarshalTime (b.take 15) else unmarshalTime b
      match tdec with
      | none => none
      | some t =>
        if rest.length < 8 then some (.keep [])
        else
          let off := sintOfBytesBE (rest.take 8)
          match readRecordsAux fuel (rest.drop 8) with
          | none => none
          | some .dropAll => some .dropAll
          | some (.keep l) => some (.keep ({ time := t, offset := off } :: l))

def readRecords (bs : List Nat) : Option ReadTail := readRecordsAux bs.length bs

/-- Embedding of `readIndexFile` (index.go:98-153) on the file's bytes:
`none` models a non-nil error return (the caller treats every error as a
stale index and falls back to scanning). -/
def readIndexFileBytes (bs : List Nat) : Option (List IndexEntry) :=
  if bs.length < 16 then none
  else
    let b := bs.take 16
    -- `if b[0] != 'S' && b[1] != 'I' && b[2] != 'D' && b[3] != 'X'`
    if b.getD 0 0 ≠ 83 ∧ b.getD 1 0 ≠ 73 ∧ b.getD 2 0 ≠ 68 ∧ b.getD 3 0 ≠ 88 then none
    else
      match readRecords (bs.drop 16) with
      | none => none
      | some .dropAll => some []
      | some (.keep l) => some l


/-- A sidecar file whose header carries the wrong magic (only the first byte
is `'S'`; bytes 1-3 are zero, not `'I','D','X'`) and a malformed version
byte `7`, followed by one valid record. -/
def badMagicFile : List Nat :=
  [83, 0, 0, 0, 7, 0, 0, 0, 0, 0, 0, 0, 0, 0, 0, 0] ++
    recordBytes { time := { sec := 7, nsec := 3, zoneOff := 0, isUTC := true }, offset := 5 }

set_option maxRecDepth 8000 in
/-- C2 fails on the code: `readIndexFile` joins the four magic-byte
mismatches with `&&`, so it rejects the header only when ALL four bytes
differ from `'S','I','D','X'`, and it never inspects the version byte.
A file whose header has the wrong magic in bytes 1-3 and version byte `7`
is accepted and its records are returned, instead of failing with
`ErrIndexIsOld` and returning no entries. -/
theorem c2_bad_magic_accepted :
    (badMagicFile.take 4 ≠ [83, 73, 68, 88])
    ∧ (badMagicFile.getD 4 0 ≠ 1)
    ∧ readIndexFileBytes badMagicFile =
        some [{ time := { sec := 7, nsec := 3, zoneOff := -60, isUTC := true }, offset := 5 }] := by
  refine ⟨by decide, by decide, by decide⟩

/-! ### Sidecar writer control flow (`index.go`, `writeIndex`)

File-system effects are explicit: `prev` is the content of the existing
sidecar (`none` if absent), the oracle decides which I/O operations fail,
and the result is the sidecar content afterwards plus the returned error
(`true` = non-nil). -/

/-- Failure oracle for one `writeIndex` run: whether `os.Create` succeeds,
whether the ignored header `f.Write` succeeds, whether the `k`-th entry's
timestamp write / offset write succeed, and whether `os.Rename` succeeds. -/
structure WOracle where
  createOk : Bool
  headerOk : Bool
  timeWriteOk : Nat → Bool
  offsetWriteOk : Nat → Bool
  renameOk : Bool

/-- The entry loop of `writeIndex` (index.go:169-188): returns the bytes
accumulated in the temp file and whether the loop-local `err` was non-nil
when the loop ended. -/
def writeLoopGo (o : WOracle) : Nat → List IndexEntry → List Nat → List Nat × Bool
  | _, [], acc => (acc, false)
  | k, e :: rest, acc =>
    match marshalTime e.time with
    | none => (acc, true)
    | some b =>
      let b := if b.length = 15 then b ++ [0] else b
      if !o.timeWriteOk k then (acc, true)
      else
        let acc := acc ++ b
        if !o.offsetWriteOk k then (acc, true)
        else writeLoopGo o (k + 1) rest (acc ++ intToBytesBE 8 e.offset)

/-- Embedding of `writeIndex` (index.go:155-205).  Mirrors the source's
variable scoping: the loop body declares its own `err` with
`b, err := entry.Time.MarshalBinary()`, so the `if err != nil` after the
loop reads the function-scope `err` of `f, err := os.Create(tmpFile)`,
which is nil whenever the create succeeded.  Returns the final sidecar
content and the returned error (`true` = non-nil). -/
def writeIndexGo (o : WOracle) (idx : List IndexEntry) (prev : Option (List Nat)) :
    Option (List Nat) × Bool :=
  if !o.createOk then (prev, true)
  else
    -- function-scope err: nil, because os.Create succeeded
    let outerErr := false
    -- `f.Write(header)`: return values discarded by the source
    let tmp := if o.headerOk then header16 else []
    let res := writeLoopGo o 0 idx tmp
    -- `if err != nil { os.Remove(tmpFile); return err }` tests outerErr,
    -- not the loop-local err in res.2
    if outerErr then (prev, true)
    else if !o.renameOk then (prev, true)
    else (some res.1, false)

/-- The all-success oracle. -/
def allOkOracle : WOracle :=
  { createOk := true, headerOk := true, timeWriteOk := fun _ => true,
    offsetWriteOk := fun _ => true, renameOk := true }

/-- Oracle in which the very first timestamp write fails (e.g. disk full)
and everything else succeeds. -/
def firstWriteFailsOracle : WOracle :=
  { allOkOracle with timeWriteOk := fun _ => false }

/-- C5 fails on the code: when writing the first entry's timestamp fails,
`writeIndex` still renames the partial temp file (here: just the header)
over the previous sidecar and returns nil.  The loop-local `err` declared
by `b, err := entry.Time.MarshalBinary()` shadows the function-scope `err`,
so the post-loop `if err != nil { os.Remove(tmpFile); return err }` never
fires and the claim's guarantee (remove temp, return the error, leave the
previous sidecar unchanged) is violated. -/
theorem c5_write_error_renames_partial :
    (writeLoopGo firstWriteFailsOracle 0
        [{ time := { sec := 7, nsec := 3, zoneOff := 0, isUTC := true }, offset := 5 }]
        header16).2 = true
    ∧ writeIndexGo firstWriteFailsOracle
        [{ time := { sec := 7, nsec := 3, zoneOff := 0, isUTC := true }, offset := 5 }]
        (some [9, 9, 9])
        = (some header16, false)
    ∧ some header16 ≠ some [9, 9, 9] := by
  refine ⟨by decide, by decide, by decide⟩


/-! ### Sidecar round trip (C6) -/

def encOff (t : GoTime) : Int := if t.isUTC then -60 else t.zoneOff

def normTime (t : GoTime) : GoTime :=
  { sec := t.sec, nsec := t.nsec, zoneOff := encOff t, isUTC := encOff t = -60 }

def normEntry (e : IndexEntry) : IndexEntry :=
  { time := normTime e.time, offset := e.offset }

def entryKey (e : IndexEntry) : Int × Int × Int := (e.time.sec, e.time.nsec, e.offset)

def WFTime (t : GoTime) : Prop :=
  -(2 ^ 63) ≤ t.sec ∧ t.sec < 2 ^ 63 ∧ 0 ≤ t.nsec ∧ t.nsec < 1000000000 ∧
    (marshalTime t).isSome = true

def WFEntry (e : IndexEntry) : Prop :=
  WFTime e.time ∧ -(2 ^ 63) ≤ e.offset ∧ e.offset < 2 ^ 63

theorem tmod60_bounds (a : Int) : -60 < a.tmod 60 ∧ a.tmod 60 < 60 := by
  have h2 : (0 : Int) < 60 := by norm_num
  have h4 : (-a).tmod 60 = -(a.tmod 60) := by
    simp [Int.tmod_def, Int.neg_tdiv]; ring
  constructor
  · rcases le_or_lt 0 a with h | h
    · have h1 := Int.tmod_nonneg (a := a) 60 h
      omega
    · have h3 := Int.tmod_lt_of_pos (-a) h2
      omega
  · rcases le_or_lt 0 a with h | h
    · exact Int.tmod_lt_of_pos a h2
    · have h3 := Int.tmod_nonneg (a := -a) 60 (by omega)
      omega

theorem sint8_round (i : Int) (h1 : -(2 ^ 63) ≤ i) (h2 : i < 2 ^ 63) :
    sintOfBytesBE (intToBytesBE 8 i) = i := by
  have := sintOfBytesBE_intToBytesBE 8 (by norm_num) i (by norm_num; omega) (by norm_num; omega)
  exact this

theorem sint4_round (i : Int) (h1 : 0 ≤ i) (h2 : i < 1000000000) :
    sintOfBytesBE (intToBytesBE 4 i) = i := by
  exact sintOfBytesBE_intToBytesBE 4 (by norm_num) i (by norm_num; omega) (by norm_num; omega)

theorem sint2_round (i : Int) (h1 : -32768 ≤ i) (h2 : i ≤ 32767) :
    sintOfBytesBE (intToBytesBE 2 i) = i := by
  exact sintOfBytesBE_intToBytesBE 2 (by norm_num) i (by norm_num; omega) (by norm_num; omega)

theorem sint1_round (i : Int) (h1 : -128 ≤ i) (h2 : i < 128) :
    sintOfBytesBE (intToBytesBE 1 i) = i := by
  exact sintOfBytesBE_intToBytesBE 1 (by norm_num) i (by norm_num; omega) (by norm_num; omega)

theorem unmarshal_v1 (sec nsec offMin : Int)
    (hs1 : -(2 ^ 63) ≤ sec) (hs2 : sec < 2 ^ 63)
    (hn1 : 0 ≤ nsec) (hn2 : nsec < 1000000000)
    (ho1 : -32768 ≤ offMin) (ho2 : offMin ≤ 32767) :
    unmarshalTime (1 :: (intToBytesBE 8 sec ++ intToBytesBE 4 nsec ++ intToBytesBE 2 offMin))
      = some { sec := sec, nsec := nsec, zoneOff := offMin * 60,
               isUTC := offMin * 60 = -60 } := by
  have l8 := length_intToBytesBE 8 sec
  have l4 := length_intToBytesBE 4 nsec
  have l2 := length_intToBytesBE 2 offMin
  unfold unmarshalTime
  have hlen : (intToBytesBE 8 sec ++ intToBytesBE 4 nsec ++ intToBytesBE 2 offMin).length = 14 := by
    simp [l8, l4, l2]
  rw [List.append_assoc]
  have htake8 : ((intToBytesBE 8 sec ++ (intToBytesBE 4 nsec ++ intToBytesBE 2 offMin))).take 8
      = intToBytesBE 8 sec := List.take_left' l8
  have hdrop8 : ((intToBytesBE 8 sec ++ (intToBytesBE 4 nsec ++ intToBytesBE 2 offMin))).drop 8
      = intToBytesBE 4 nsec ++ intToBytesBE 2 offMin := List.drop_left' l8
  have hdrop12 : ((intToBytesBE 8 sec ++ (intToBytesBE 4 nsec ++ intToBytesBE 2 offMin))).drop 12
      = intToBytesBE 2 offMin := by
    rw [← List.append_assoc]
    exact List.drop_left' (by simp [l8, l4])
  simp only [hlen, List.append_assoc] at *
  simp only [htake8, hdrop8, hdrop12]
  norm_num
  rw [List.take_left' l4]
  rw [List.take_of_length_le l2.le]
  rw [sint8_round sec hs1 hs2, sint4_round nsec hn1 hn2, sint2_round offMin ho1 ho2]
  simp [l8, l4, l2]

theorem unmarshal_v2 (sec nsec offMin offSec : Int)
    (hs1 : -(2 ^ 63) ≤ sec) (hs2 : sec < 2 ^ 63)
    (hn1 : 0 ≤ nsec) (hn2 : nsec < 1000000000)
    (ho1 : -32768 ≤ offMin) (ho2 : offMin ≤ 32767)
    (hq1 : -128 ≤ offSec) (hq2 : offSec < 128) :
    unmarshalTime (2 :: (intToBytesBE 8 sec ++ intToBytesBE 4 nsec ++
        intToBytesBE 2 offMin ++ intToBytesBE 1 offSec))
      = some { sec := sec, nsec := nsec, zoneOff := offMin * 60 + offSec,
               isUTC := offMin * 60 + offSec = -60 } := by
  have l8 := length_intToBytesBE 8 sec
  have l4 := length_intToBytesBE 4 nsec
  have l2 := length_intToBytesBE 2 offMin
  have l1 := length_intToBytesBE 1 offSec
  unfold unmarshalTime
  have hlen : (intToBytesBE 8 sec ++ intToBytesBE 4 nsec ++ intToBytesBE 2 offMin
      ++ intToBytesBE 1 offSec).length = 15 := by simp [l8, l4, l2, l1]
  have htake8 : (intToBytesBE 8 sec ++ (intToBytesBE 4 nsec ++ (intToBytesBE 2 offMin
      ++ intToBytesBE 1 offSec))).take 8 = intToBytesBE 8 sec := List.take_left' l8
  have hdrop8 : (intToBytesBE 8 sec ++ (intToBytesBE 4 nsec ++ (intToBytesBE 2 offMin
      ++ intToBytesBE 1 offSec))).drop 8
      = intToBytesBE 4 nsec ++ (intToBytesBE 2 offMin ++ intToBytesBE 1 offSec) :=
    List.drop_left' l8
  have hdrop12 : (intToBytesBE 8 sec ++ (intToBytesBE 4 nsec ++ (intToBytesBE 2 offMin
      ++ intToBytesBE 1 offSec))).drop 12 = intToBytesBE 2 offMin ++ intToBytesBE 1 offSec := by
    rw [← List.append_assoc]
    exact List.drop_left' (by simp [l8, l4])
  have hdrop14 : (intToBytesBE 8 sec ++ (intToBytesBE 4 nsec ++ (intToBytesBE 2 offMin
      ++ intToBytesBE 1 offSec))).drop 14 = intToBytesBE 1 offSec := by
    rw [← List.append_assoc, ← List.append_assoc]
    exact List.drop_left' (by simp [l8, l4, l2])
  simp only [List.append_assoc] at *
  simp only [hlen, htake8, hdrop8, hdrop12, hdrop14]
  norm_num
  rw [List.take_left' l4, List.take_left' l2, List.take_of_length_le l1.le]
  rw [sint8_round sec hs1 hs2, sint4_round nsec hn1 hn2, sint2_round offMin ho1 ho2,
      sint1_round offSec hq1 hq2]
  simp [l8, l4, l2, l1]

theorem marshalTime_utc (t : GoTime) (hU : t.isUTC = true) :
    marshalTime t = some (1 :: (intToBytesBE 8 t.sec ++ intToBytesBE 4 t.nsec
      ++ intToBytesBE 2 (-1))) := by
  unfold marshalTime
  dsimp only
  rw [if_pos hU]

theorem marshalTime_v2 (t : GoTime) (hU : ¬ t.isUTC = true)
    (hg : ¬ (t.zoneOff.tdiv 60 < -32768 ∨ t.zoneOff.tdiv 60 = -1 ∨ t.zoneOff.tdiv 60 > 32767))
    (hS : t.zoneOff.tmod 60 ≠ 0) :
    marshalTime t = some (2 :: (intToBytesBE 8 t.sec ++ intToBytesBE 4 t.nsec
      ++ intToBytesBE 2 (t.zoneOff.tdiv 60) ++ intToBytesBE 1 (t.zoneOff.tmod 60))) := by
  unfold marshalTime
  dsimp only
  rw [if_neg hU, if_neg hg, if_pos hS]

theorem marshalTime_v1 (t : GoTime) (hU : ¬ t.isUTC = true)
    (hg : ¬ (t.zoneOff.tdiv 60 < -32768 ∨ t.zoneOff.tdiv 60 = -1 ∨ t.zoneOff.tdiv 60 > 32767))
    (hS : t.zoneOff.tmod 60 = 0) :
    marshalTime t = some (1 :: (intToBytesBE 8 t.sec ++ intToBytesBE 4 t.nsec
      ++ intToBytesBE 2 (t.zoneOff.tdiv 60))) := by
  unfold marshalTime
  dsimp only
  rw [if_neg hU, if_neg hg, if_neg (by simp [hS])]

theorem marshalTime_guard (t : GoTime) (hU : ¬ t.isUTC = true)
    (hm : (marshalTime t).isSome = true) :
    ¬ (t.zoneOff.tdiv 60 < -32768 ∨ t.zoneOff.tdiv 60 = -1 ∨ t.zoneOff.tdiv 60 > 32767) := by
  intro hg
  unfold marshalTime at hm
  dsimp only at hm
  rw [if_neg hU, if_pos hg] at hm
  simp at hm

theorem timeSlot_spec (t : GoTime) (hwf : WFTime t) :
    (timeSlot t).length = 16 ∧
    (if (timeSlot t).getD 0 0 = 1 then unmarshalTime ((timeSlot t).take 15)
     else unmarshalTime (timeSlot t)) = some (normTime t) := by
  obtain ⟨hs1, hs2, hn1, hn2, hm⟩ := hwf
  have l8 := length_intToBytesBE 8 t.sec
  have l4 := length_intToBytesBE 4 t.nsec
  by_cases hU : t.isUTC = true
  · have hmv := marshalTime_utc t hU
    have l2 := length_intToBytesBE 2 (-1 : Int)
    have hblen : (1 :: (intToBytesBE 8 t.sec ++ intToBytesBE 4 t.nsec
        ++ intToBytesBE 2 (-1))).length = 15 := by simp [l8, l4, l2]
    unfold timeSlot
    rw [hmv, Option.getD_some, if_pos hblen]
    refine ⟨by simp [l8, l4, l2], ?_⟩
    have hgd : ((1 :: (intToBytesBE 8 t.sec ++ intToBytesBE 4 t.nsec
        ++ intToBytesBE 2 (-1))) ++ [0]).getD 0 0 = 1 := rfl
    rw [if_pos hgd, List.take_left' hblen]
    rw [unmarshal_v1 t.sec t.nsec (-1) hs1 hs2 hn1 hn2 (by norm_num) (by norm_num)]
    unfold normTime encOff
    rw [if_pos hU]
    norm_num
  · have hg := marshalTime_guard t hU hm
    have hb : -32768 ≤ t.zoneOff.tdiv 60 ∧ t.zoneOff.tdiv 60 ≠ -1 ∧ t.zoneOff.tdiv 60 ≤ 32767 := by
      push_neg at hg
      omega
    have hsum := Int.tdiv_add_tmod t.zoneOff 60
    have hmb := tmod60_bounds t.zoneOff
    by_cases hS : t.zoneOff.tmod 60 ≠ 0
    · have hmv := marshalTime_v2 t hU hg hS
      have l2 := length_intToBytesBE 2 (t.zoneOff.tdiv 60)
      have l1 := length_intToBytesBE 1 (t.zoneOff.tmod 60)
      have hblen : ¬ (2 :: (intToBytesBE 8 t.sec ++ intToBytesBE 4 t.nsec
          ++ intToBytesBE 2 (t.zoneOff.tdiv 60) ++ intToBytesBE 1 (t.zoneOff.tmod 60))).length
          = 15 := by simp [l8, l4, l2, l1]
      unfold timeSlot
      rw [hmv, Option.getD_some, if_neg hblen]
      refine ⟨by simp [l8, l4, l2, l1], ?_⟩
      have hgd : (2 :: (intToBytesBE 8 t.sec ++ intToBytesBE 4 t.nsec
          ++ intToBytesBE 2 (t.zoneOff.tdiv 60)
          ++ intToBytesBE 1 (t.zoneOff.tmod 60))).getD 0 0 = 2 := rfl
      rw [if_neg (by rw [hgd]; norm_num)]
      rw [unmarshal_v2 t.sec t.nsec (t.zoneOff.tdiv 60) (t.zoneOff.tmod 60)
          hs1 hs2 hn1 hn2 (by omega) (by omega) (by omega) (by omega)]
      have hoff : t.zoneOff.tdiv 60 * 60 + t.zoneOff.tmod 60 = t.zoneOff := by linarith
      unfold normTime encOff
      rw [if_neg hU, hoff]
    · push_neg at hS
      have hmv := marshalTime_v1 t hU hg hS
      have l2 := length_intToBytesBE 2 (t.zoneOff.tdiv 60)
      have hblen : (1 :: (intToBytesBE 8 t.sec ++ intToBytesBE 4 t.nsec
          ++ intToBytesBE 2 (t.zoneOff.tdiv 60))).length = 15 := by simp [l8, l4, l2]
      unfold timeSlot
      rw [hmv, Option.getD_some, if_pos hblen]
      refine ⟨by simp [l8, l4, l2], ?_⟩
      have hgd : ((1 :: (intToBytesBE 8 t.sec ++ intToBytesBE 4 t.nsec
          ++ intToBytesBE 2 (t.zoneOff.tdiv 60))) ++ [0]).getD 0 0 = 1 := rfl
      rw [if_pos hgd, List.take_left' hblen]
      rw [unmarshal_v1 t.sec t.nsec (t.zoneOff.tdiv 60) hs1 hs2 hn1 hn2 (by omega) (by omega)]
      have hoff : t.zoneOff.tdiv 60 * 60 = t.zoneOff := by omega
      unfold normTime encOff
      rw [if_neg hU, hoff]

theorem readRecordsAux_congr (f1 : Nat) :
    ∀ (f2 : Nat) (bs : List Nat), bs.length ≤ f1 → bs.length ≤ f2 →
      readRecordsAux f1 bs = readRecordsAux f2 bs := by
  induction f1 with
  | zero =>
    intro f2 bs h1 _h2
    have hnil : bs = [] := List.eq_nil_of_length_eq_zero (by omega)
    subst hnil
    cases f2 <;> rfl
  | succ f1 ih =>
    intro f2 bs h1 h2
    match bs, f2 with
    | [], f2 => cases f2 <;> rfl
    | x :: xs, 0 => simp at h2
    | x :: xs, g + 1 =>
      show readRecordsAux (f1 + 1) (x :: xs) = readRecordsAux (g + 1) (x :: xs)
      unfold readRecordsAux
      split
      · rfl
      · dsimp only
        split
        · rfl
        · split
          · rfl
          · rw [ih g (((x :: xs).drop 16).drop 8)
                (by simp only [List.length_drop, List.length_cons] at *; omega)
                (by simp only [List.length_drop, List.length_cons] at *; omega)]

theorem readRecordsAux_step (f : Nat) (bs : List Nat) (h : 16 ≤ bs.length) :
    readRecordsAux (f + 1) bs =
      (match (if (bs.take 16).getD 0 0 = 1 then unmarshalTime ((bs.take 16).take 15)
              else unmarshalTime (bs.take 16)) with
       | none => none
       | some t =>
         if (bs.drop 16).length < 8 then some (.keep [])
         else
           match readRecordsAux f ((bs.drop 16).drop 8) with
           | none => none
           | some .dropAll => some .dropAll
           | some (.keep l) =>
             some (.keep ({ time := t,
                            offset := sintOfBytesBE ((bs.drop 16).take 8) } :: l))) := by
  match bs with
  | [] => simp at h
  | x :: xs =>
    show readRecordsAux (f + 1) (x :: xs) = _
    generalize hr : readRecordsAux f (List.drop 8 (List.drop 16 (x :: xs))) = r
    unfold readRecordsAux
    dsimp only
    rw [if_neg (by simp at h ⊢; omega), hr]

theorem readRecords_record (e : IndexEntry) (rest : List Nat) (hwf : WFEntry e) :
    readRecords (recordBytes e ++ rest) =
      match readRecords rest with
      | none => none
      | some .dropAll => some .dropAll
      | some (.keep l) => some (.keep (normEntry e :: l)) := by
  obtain ⟨hwt, ho1, ho2⟩ := hwf
  have hsl := timeSlot_spec e.time hwt
  have hslen := hsl.1
  have l8 := length_intToBytesBE 8 e.offset
  have hrl : (recordBytes e).length = 24 := by
    simp [recordBytes, hslen, l8]
  have hassoc : recordBytes e ++ rest
      = timeSlot e.time ++ (intToBytesBE 8 e.offset ++ rest) := by
    simp [recordBytes]
  have hlen : (recordBytes e ++ rest).length = 24 + rest.length := by simp [hrl]
  unfold readRecords
  rw [hlen, show 24 + rest.length = (23 + rest.length) + 1 from by omega]
  rw [readRecordsAux_step (23 + rest.length) (recordBytes e ++ rest) (by omega)]
  rw [hassoc]
  rw [List.take_left' hslen, List.drop_left' hslen]
  rw [hsl.2]
  dsimp only
  rw [if_neg (by simp [l8])]
  rw [List.take_left' l8, List.drop_left' l8]
  rw [sint8_round e.offset ho1 ho2]
  rw [readRecordsAux_congr (23 + rest.length) rest.length rest (by omega) (by omega)]
  rfl

/-- The bytes `writeIndex` produces when every I/O operation succeeds:
header followed by one 24-byte record per entry. -/
def writeContent (idx : List IndexEntry) : List Nat :=
  header16 ++ (idx.map recordBytes).flatten

theorem writeLoopGo_allOk (idx : List IndexEntry)
    (h : ∀ e ∈ idx, (marshalTime e.time).isSome = true) :
    ∀ (k : Nat) (acc : List Nat),
      writeLoopGo allOkOracle k idx acc = (acc ++ (idx.map recordBytes).flatten, false) := by
  induction idx with
  | nil => intro k acc; simp [writeLoopGo]
  | cons e tl ih =>
    intro k acc
    have he : (marshalTime e.time).isSome = true := h e (by simp)
    obtain ⟨b, hb⟩ := Option.isSome_iff_exists.mp he
    unfold writeLoopGo
    rw [hb]
    dsimp only
    rw [if_neg (by simp [allOkOracle]), if_neg (by simp [allOkOracle])]
    rw [ih (fun x hx => h x (by simp [hx])) (k + 1)]
    have hslot : (if b.length = 15 then b ++ [0] else b) = timeSlot e.time := by
      unfold timeSlot
      rw [hb, Option.getD_some]
    rw [hslot]
    simp [recordBytes]

theorem writeIndexGo_allOk (idx : List IndexEntry) (prev : Option (List Nat))
    (h : ∀ e ∈ idx, (marshalTime e.time).isSome = true) :
    writeIndexGo allOkOracle idx prev = (some (writeContent idx), false) := by
  unfold writeIndexGo
  dsimp only
  rw [if_neg (by simp [allOkOracle])]
  rw [show (if allOkOracle.headerOk = true then header16 else []) = header16 from rfl]
  rw [writeLoopGo_allOk idx h 0 header16]
  dsimp only
  rw [if_neg (by simp [allOkOracle])]
  rfl

theorem readRecords_flatten (idx : List IndexEntry) (h : ∀ e ∈ idx, WFEntry e) :
    readRecords ((idx.map recordBytes).flatten) = some (.keep (idx.map normEntry)) := by
  induction idx with
  | nil => rfl
  | cons e tl ih =>
    have he : WFEntry e := h e (by simp)
    rw [List.map_cons, List.flatten_cons,
        readRecords_record e ((tl.map recordBytes).flatten) he,
        ih (fun x hx => h x (by simp [hx]))]
    rfl

/-- Non-decreasing order on entries at instant precision. -/
def timeInstLE (a b : IndexEntry) : Prop :=
  a.time.sec < b.time.sec ∨ (a.time.sec = b.time.sec ∧ a.time.nsec ≤ b.time.nsec)

instance : DecidableRel timeInstLE := fun a b => by
  unfold timeInstLE; infer_instance

instance : DecidablePred WFTime := fun t => by
  unfold WFTime; infer_instance

instance : DecidablePred WFEntry := fun e => by
  unfold WFEntry; infer_instance

theorem readIndexFileBytes_writeContent (idx : List IndexEntry)
    (hwf : ∀ e ∈ idx, WFEntry e) :
    readIndexFileBytes (writeContent idx) = some (idx.map normEntry) := by
  have hh : (header16 : List Nat).length = 16 := rfl
  unfold readIndexFileBytes writeContent
  rw [if_neg (by simp [hh])]
  rw [List.take_left' hh, List.drop_left' hh]
  rw [if_neg (by intro hc; exact absurd rfl hc.1)]
  rw [readRecords_flatten idx hwf]

/-- C6: sidecar round trip.  For every non-empty, time-sorted entry list
whose entries carry the Go type invariants (`int64` seconds and offset,
nanoseconds in `[0,1e9)`) and marshallable zone offsets, writing the list
with `writeIndex` (all I/O succeeding) and reading the produced file back
with `readIndexFile` yields the same entries: offsets exact, timestamps
equal at the sidecar format's encoding precision (the instant survives;
only the location is normalised to what the 15/16-byte encoding stores,
selected per record by its leading version byte). -/
theorem c6_sidecar_roundtrip (idx : List IndexEntry) (hne : idx ≠ [])
    (hsorted : List.Pairwise timeInstLE idx)
    (hwf : ∀ e ∈ idx, WFEntry e) :
    writeIndexGo allOkOracle idx none = (some (writeContent idx), false)
    ∧ readIndexFileBytes (writeContent idx) = some (idx.map normEntry)
    ∧ (idx.map normEntry).map entryKey = idx.map entryKey := by
  refine ⟨writeIndexGo_allOk idx none (fun e he => (hwf e he).1.2.2.2.2), ?_, ?_⟩
  · exact readIndexFileBytes_writeContent idx hwf
  · rw [List.map_map]
    congr 1

/-- The concrete entry list used as the C6 witness. -/
def wlist : List IndexEntry :=
  [{ time := { sec := 0, nsec := 0, zoneOff := 0, isUTC := true }, offset := 5 },
   { time := { sec := 1, nsec := 500, zoneOff := 3600, isUTC := false }, offset := 7 }]

theorem c6_sidecar_roundtrip_witness :
    (wlist ≠ [] ∧ List.Pairwise timeInstLE wlist ∧ (∀ e ∈ wlist, WFEntry e))
    ∧ (writeIndexGo allOkOracle wlist none = (some (writeContent wlist), false)
       ∧ readIndexFileBytes (writeContent wlist) = some (wlist.map normEntry)
       ∧ (wlist.map normEntry).map entryKey = wlist.map entryKey) :=
  ⟨⟨by decide, by decide, by decide⟩,
    c6_sidecar_roundtrip wlist (by decide) (by decide) (by decide)⟩


/-! ### Time index operations (`index.go`, `index.FindBestOffset`)

In-memory entries carry `GoTime` wall-clock values; `Time.After` /
`Time.Before` compare the instant `(sec, nsec)` lexicographically
(`Truncate(0)` only strips the monotonic reading, which this model does
not carry). -/

/-- `a.Before b` / `b.After a`: strict instant order. -/
def instLT (a b : GoTime) : Prop :=
  a.sec < b.sec ∨ (a.sec = b.sec ∧ a.nsec < b.nsec)

instance : DecidableRel instLT := fun a b => by
  unfold instLT; infer_instance

instance : Inhabited IndexEntry where
  default := { time := { sec := 0, nsec := 0, zoneOff := 0, isUTC := true }, offset := 0 }

/-- The scan loop of `index.FindBestOffset` (index.go:379-387), carrying the
previous element (`entries[n-1]`) instead of the index. -/
def fboLoop (start : GoTime) : List IndexEntry → Option IndexEntry → Int
  | [], _ => 0
  | e :: rest, prev =>
    if instLT start e.time then       -- entries[n].Time.After(start)
      match prev with
      | none => 0                     -- n = 0: break, return 0
      | some p => if e.offset ≠ 0 then p.offset else 0
    else fboLoop start rest (some e)

/-- Embedding of `index.FindBestOffset` (index.go:369-389); `none` models a
path that is not in the entries map. -/
def FindBestOffset (entries : Option (List IndexEntry)) (start : GoTime) : Int :=
  match entries with
  | none => 0
  | some es => fboLoop start es none

/-- Index of the first entry strictly after `start`, if any. -/
def firstAfterIdx (start : GoTime) : List IndexEntry → Option Nat
  | [] => none
  | e :: r => if instLT start e.time then some 0 else (firstAfterIdx start r).map (· + 1)

/-- The claim's description of `findSeekHint`: return the PRECEDING entry's
offset when the found entry exists, is not first, and the preceding entry's
offset is non-sentinel; otherwise 0. -/
def findSeekHintClaim (es : List IndexEntry) (start : GoTime) : Int :=
  match firstAfterIdx start es with
  | none => 0
  | some n =>
    if n ≠ 0 ∧ (es.getD (n - 1) default).offset ≠ 0 then (es.getD (n - 1) default).offset
    else 0

/-- What the code actually computes: the test is on the FOUND entry's
offset, the returned value is the preceding entry's offset. -/
def fboSpec (es : List IndexEntry) (start : GoTime) : Int :=
  match firstAfterIdx start es with
  | none => 0
  | some n =>
    if n ≠ 0 ∧ (es.getD n default).offset ≠ 0 then (es.getD (n - 1) default).offset
    else 0

theorem fboLoop_some (start : GoTime) (p : IndexEntry) :
    ∀ rest : List IndexEntry,
      fboLoop start rest (some p) =
        match firstAfterIdx start rest with
        | none => 0
        | some m =>
          if (rest.getD m default).offset ≠ 0 then
            (if m = 0 then p.offset else (rest.getD (m - 1) default).offset)
          else 0 := by
  intro rest
  induction rest generalizing p with
  | nil => rfl
  | cons e r ih =>
    unfold fboLoop firstAfterIdx
    by_cases hA : instLT start e.time
    · rw [if_pos hA, if_pos hA]
      dsimp only
      by_cases ho : e.offset ≠ 0
      · rw [if_pos ho]
        simp [List.getD, ho]
      · rw [if_neg ho]
        simp only [List.getD_cons_zero]
        rw [if_neg ho]
    · rw [if_neg hA, if_neg hA]
      rw [ih e]
      cases hfa : firstAfterIdx start r with
      | none => simp
      | some m =>
        simp only [Option.map_some, Option.map]
        cases m with
        | zero => simp
        | succ m => simp

/-- C3 amended: `FindBestOffset` locates the first entry strictly after
`start`; if that entry exists, is not the first entry, and THAT FOUND
entry's offset is non-sentinel, it returns the PRECEDING entry's offset;
otherwise it returns 0 (also for an unindexed path).  This differs from
the claim only in whose offset is tested against the sentinel. -/
theorem c3_find_best_offset_characterization (es : List IndexEntry) (start : GoTime)
    (hsorted : List.Pairwise timeInstLE es) :
    FindBestOffset (some es) start = fboSpec es start
    ∧ FindBestOffset none start = 0 := by
  refine ⟨?_, rfl⟩
  unfold FindBestOffset fboSpec
  cases es with
  | nil => rfl
  | cons e r =>
    unfold fboLoop firstAfterIdx
    by_cases hA : instLT start e.time
    · rw [if_pos hA, if_pos hA]
      simp
    · rw [if_neg hA, if_neg hA]
      rw [fboLoop_some start e r]
      cases hfa : firstAfterIdx start r with
      | none => simp
      | some m =>
        simp only [Option.map_some, Option.map]
        cases m with
        | zero => simp
        | succ m => simp

/-- The sorted two-entry list refuting C3 as stated. -/
def cex3 : List IndexEntry :=
  [{ time := { sec := 1, nsec := 0, zoneOff := 0, isUTC := true }, offset := 5 },
   { time := { sec := 2, nsec := 0, zoneOff := 0, isUTC := true }, offset := 0 }]

/-- C3 counterexample: with entries `[(t=1, off=5), (t=2, off=0)]` and
`start = t1`, the first entry strictly after `start` is index 1, it is not
the first entry, and the preceding entry's offset is `5 ≠ 0`, so the claim
says `FindBestOffset` returns 5 — but the code tests the FOUND entry's
offset (which is the sentinel 0) and returns 0. -/
theorem c3_claim_counterexample :
    List.Pairwise timeInstLE cex3
    ∧ firstAfterIdx { sec := 1, nsec := 0, zoneOff := 0, isUTC := true } cex3 = some 1
    ∧ findSeekHintClaim cex3 { sec := 1, nsec := 0, zoneOff := 0, isUTC := true } = 5
    ∧ FindBestOffset (some cex3) { sec := 1, nsec := 0, zoneOff := 0, isUTC := true } = 0 := by
  refine ⟨by decide, by decide, by decide, by decide⟩

/-- Witness for the amended C3 characterization at a concrete sorted list. -/
theorem c3_find_best_offset_characterization_witness :
    List.Pairwise timeInstLE cex3
    ∧ FindBestOffset (some cex3) { sec := 0, nsec := 0, zoneOff := 0, isUTC := true }
        = fboSpec cex3 { sec := 0, nsec := 0, zoneOff := 0, isUTC := true } :=
  ⟨by decide,
    (c3_find_best_offset_characterization cex3
      { sec := 0, nsec := 0, zoneOff := 0, isUTC := true } (by decide)).1⟩


/-! ### Prefix pruning (`index.go`, `index.PruneIndex`) -/

/-- The `n0` loop of `PruneIndex` (index.go:446-450): index of the first
entry with `!Time.Before(start)`, or the length when none. -/
def firstIdxNotBefore (s : GoTime) : List IndexEntry → Nat
  | [] => 0
  | e :: r => if ¬ instLT e.time s then 0 else firstIdxNotBefore s r + 1

/-- The `n1` scan (index.go:452-456): offset of the first sentinel
(`Offset == 0`), or the length when none. -/
def firstIdxSentinel : List IndexEntry → Nat
  | [] => 0
  | e :: r => if e.offset = 0 then 0 else firstIdxSentinel r + 1

def pruneN0 (idx : List IndexEntry) (s : GoTime) : Nat := firstIdxNotBefore s idx

def pruneN1 (idx : List IndexEntry) (s : GoTime) : Nat :=
  pruneN0 idx s + 1 + firstIdxSentinel (idx.drop (pruneN0 idx s + 1))

/-- Embedding of the body of `index.PruneIndex` (index.go:435-464) on one
path's list: no-op when the list is empty or its last entry is strictly
before `start`; otherwise rebuild as `idx[:n0] ++ idx[n1:]`. -/
def PruneIndexL (idx : List IndexEntry) (start : GoTime) : List IndexEntry :=
  match idx.getLast? with
  | none => idx
  | some lastE =>
    if instLT lastE.time start then idx
    else idx.take (pruneN0 idx start) ++ idx.drop (pruneN1 idx start)

/-- `index.PruneIndex` including the unindexed-path guard (`!ok`). -/
def PruneIndex (m : Option (List IndexEntry)) (start : GoTime) :
    Option (List IndexEntry) :=
  match m with
  | none => none
  | some idx => some (PruneIndexL idx start)

theorem firstIdxNotBefore_le (s : GoTime) (l : List IndexEntry) :
    firstIdxNotBefore s l ≤ l.length := by
  induction l with
  | nil => simp [firstIdxNotBefore]
  | cons e r ih =>
    unfold firstIdxNotBefore
    split <;> simp <;> omega

theorem firstIdxSentinel_le (l : List IndexEntry) :
    firstIdxSentinel l ≤ l.length := by
  induction l with
  | nil => simp [firstIdxSentinel]
  | cons e r ih =>
    unfold firstIdxSentinel
    split <;> simp <;> omega

theorem firstIdxNotBefore_lt (s : GoTime) (l : List IndexEntry) (e : IndexEntry)
    (he : e ∈ l) (h : ¬ instLT e.time s) : firstIdxNotBefore s l < l.length := by
  induction l with
  | nil => simp at he
  | cons a r ih =>
    unfold firstIdxNotBefore
    rcases List.mem_cons.mp he with rfl | hmem
    · rw [if_pos h]
      simp
    · split
      · simp
      · have := ih hmem
        simp
        omega

/-- C8 amended: `PruneIndex` is a no-op exactly when the path is unindexed,
its list is empty, or the LAST entry's time is strictly before the cut
(for a sorted list: every entry is strictly before the cut) — note the
claim has this condition inverted; when the guard passes, it removes
exactly `[n0, n1)` where `n0` is the first entry at or after the cut and
`n1` is the first sentinel index strictly after `n0` (the length when no
such sentinel exists), leaving `idx[:n0] ++ idx[n1:]`, which is a strict
shrink. -/
theorem c8_prune_characterization (idx : List IndexEntry) (start : GoTime) :
    PruneIndex none start = none
    ∧ (∀ lastE, idx.getLast? = some lastE → instLT lastE.time start →
        PruneIndexL idx start = idx)
    ∧ (idx = [] → PruneIndexL idx start = idx)
    ∧ (∀ lastE, idx.getLast? = some lastE → ¬ instLT lastE.time start →
        PruneIndexL idx start
            = idx.take (pruneN0 idx start) ++ idx.drop (pruneN1 idx start)
          ∧ PruneIndexL idx start ≠ idx) := by
  refine ⟨rfl, ?_, ?_, ?_⟩
  · intro lastE hl hb
    unfold PruneIndexL
    rw [hl]
    dsimp only
    rw [if_pos hb]
  · intro h
    subst h
    rfl
  · intro lastE hl hb
    have hmem : lastE ∈ idx := List.mem_of_mem_getLast? hl
    have hn0lt : pruneN0 idx start < idx.length :=
      firstIdxNotBefore_lt start idx lastE hmem hb
    have hn1le : pruneN1 idx start ≤ idx.length := by
      unfold pruneN1
      have := firstIdxSentinel_le (idx.drop (pruneN0 idx start + 1))
      simp only [List.length_drop] at this
      omega
    have heq : PruneIndexL idx start
        = idx.take (pruneN0 idx start) ++ idx.drop (pruneN1 idx start) := by
      unfold PruneIndexL
      rw [hl]
      dsimp only
      rw [if_neg hb]
    refine ⟨heq, ?_⟩
    rw [heq]
    intro hcontra
    have hlen := congrArg List.length hcontra
    simp only [List.length_append, List.length_take, List.length_drop] at hlen
    have : pruneN0 idx start < pruneN1 idx start := by
      unfold pruneN1
      omega
    omega

/-- List refuting C8 as stated: both entries are at/after the cut. -/
def cex8 : List IndexEntry :=
  [{ time := { sec := 10, nsec := 0, zoneOff := 0, isUTC := true }, offset := 0 },
   { time := { sec := 11, nsec := 0, zoneOff := 0, isUTC := true }, offset := 5 }]

/-- C8 counterexample: for `[(t=10, sentinel), (t=11, off=5)]` and cut
`t=5`, every entry's time is at or after the cut, so the claim says the
prune is a no-op — but the code's guard is the opposite test (last entry
BEFORE the cut), so it proceeds with `n0 = 0`, `n1 = 2` and deletes the
whole list. -/
theorem c8_claim_counterexample :
    (∀ e ∈ cex8, ¬ instLT e.time { sec := 5, nsec := 0, zoneOff := 0, isUTC := true })
    ∧ PruneIndex (some cex8) { sec := 5, nsec := 0, zoneOff := 0, isUTC := true } = some []
    ∧ (some ([] : List IndexEntry) ≠ some cex8) := by
  refine ⟨by decide, by decide, by decide⟩

/-- Witness for the amended C8 characterization: a list whose last entry is
at/after the cut (the prune fires and strictly shrinks the list). -/
theorem c8_prune_characterization_witness :
    cex8.getLast? = some { time := { sec := 11, nsec := 0, zoneOff := 0, isUTC := true }, offset := 5 }
    ∧ ¬ instLT { sec := 11, nsec := 0, zoneOff := 0, isUTC := true }
        { sec := 5, nsec := 0, zoneOff := 0, isUTC := true }
    ∧ PruneIndexL cex8 { sec := 5, nsec := 0, zoneOff := 0, isUTC := true }
        = cex8.take (pruneN0 cex8 { sec := 5, nsec := 0, zoneOff := 0, isUTC := true })
            ++ cex8.drop (pruneN1 cex8 { sec := 5, nsec := 0, zoneOff := 0, isUTC := true })
    ∧ PruneIndexL cex8 { sec := 5, nsec := 0, zoneOff := 0, isUTC := true } ≠ cex8 :=
  ⟨by decide, by decide,
    ((c8_prune_characterization cex8
        { sec := 5, nsec := 0, zoneOff := 0, isUTC := true }).2.2.2
      { time := { sec := 11, nsec := 0, zoneOff := 0, isUTC := true }, offset := 5 }
      (by decide) (by decide)).1,
    ((c8_prune_characterization cex8
        { sec := 5, nsec := 0, zoneOff := 0, isUTC := true }).2.2.2
      { time := { sec := 11, nsec := 0, zoneOff := 0, isUTC := true }, offset := 5 }
      (by decide) (by decide)).2⟩


/-! ### Rebuild merges and live appends (`index.go`, `IndexPath` / `Update`)

The merge step of `IndexPath` (index.go:332-338) appends a segment's
entries and re-sorts with `slices.SortStableFunc(curList, indexCmp)`;
`indexCmp` is negative/zero/positive as `a.Time` is before/equal/after
`b.Time` (the `int` cast of `Sub` saturates but keeps the sign), so the
sort relation is instant-`≤`.  A stable sort's output under a total
preorder is unique, so Mathlib's stable `insertionSort` models
`SortStableFunc` exactly.  `Update` (index.go:353-367) appends without
sorting. -/

/-- Instant-`≤` on wall-clock values. -/
def gtimeLE (a b : GoTime) : Prop :=
  a.sec < b.sec ∨ (a.sec = b.sec ∧ a.nsec ≤ b.nsec)

instance : DecidableRel gtimeLE := fun a b => by
  unfold gtimeLE; infer_instance

instance : IsTotal IndexEntry timeInstLE :=
  ⟨fun a b => by unfold timeInstLE; omega⟩

instance : IsTrans IndexEntry timeInstLE :=
  ⟨fun a b c => by unfold timeInstLE; omega⟩

/-- One mutation of a path's entry list: a live append (`index.Update`) or
one segment's rebuild merge (`index.IndexPath`, append + stable sort). -/
inductive IndexOp where
  | update (t : GoTime) (off : Int)
  | merge (lst : List IndexEntry)

def applyOp (l : List IndexEntry) : IndexOp → List IndexEntry
  | .update t off => l ++ [{ time := t, offset := off }]
  | .merge lst => List.insertionSort timeInstLE (l ++ lst)

def runOps (ops : List IndexOp) : List IndexEntry := ops.foldl applyOp []

/-- The times passed to `Update`, in call order. -/
def updateTimes : List IndexOp → List GoTime
  | [] => []
  | .update t _ :: r => t :: updateTimes r
  | .merge _ :: r => updateTimes r

/-- Operation sequence refuting C9 as stated: the two live appends arrive
in time order (10 then 15), but a rebuild merge in between introduces a
later entry (t=20), so the final append lands out of order. -/
def ops9 : List IndexOp :=
  [.update { sec := 10, nsec := 0, zoneOff := 0, isUTC := true } 1,
   .merge [{ time := { sec := 5, nsec := 0, zoneOff := 0, isUTC := true }, offset := 0 },
           { time := { sec := 20, nsec := 0, zoneOff := 0, isUTC := true }, offset := 2 }],
   .update { sec := 15, nsec := 0, zoneOff := 0, isUTC := true } 3]

/-- C9 counterexample: after `[append t=10, merge {t=5, t=20}, append t=15]`
— appends in time order — the list is `[5, 10, 20, 15]`, which is NOT
non-decreasing: `Update` appends without sorting, so an append below the
merged maximum leaves the list unsorted until the next merge. -/
theorem c9_claim_counterexample :
    List.Pairwise gtimeLE (updateTimes ops9)
    ∧ runOps ops9 =
        [{ time := { sec := 5, nsec := 0, zoneOff := 0, isUTC := true }, offset := 0 },
         { time := { sec := 10, nsec := 0, zoneOff := 0, isUTC := true }, offset := 1 },
         { time := { sec := 20, nsec := 0, zoneOff := 0, isUTC := true }, offset := 2 },
         { time := { sec := 15, nsec := 0, zoneOff := 0, isUTC := true }, offset := 3 }]
    ∧ ¬ List.Pairwise timeInstLE (runOps ops9) := by
  refine ⟨by decide, by decide, by decide⟩

/-- C9 amended: every rebuild merge leaves the list sorted (non-decreasing
in time), and a live append preserves sortedness when its time is at or
after every existing entry's time; an append below an existing entry's
time can leave the list transiently unsorted until the next merge
re-sorts. -/
theorem c9_sorted_merge_and_ordered_append (l lst : List IndexEntry)
    (t : GoTime) (off : Int) :
    List.Pairwise timeInstLE (applyOp l (.merge lst))
    ∧ (List.Pairwise timeInstLE l → (∀ e ∈ l, gtimeLE e.time t) →
        List.Pairwise timeInstLE (applyOp l (.update t off))) := by
  constructor
  · exact List.sorted_insertionSort timeInstLE (l ++ lst)
  · intro hs hb
    unfold applyOp
    rw [List.pairwise_append]
    refine ⟨hs, List.pairwise_singleton _ _, ?_⟩
    intro a ha b hbm
    simp only [List.mem_singleton] at hbm
    subst hbm
    have := hb a ha
    unfold gtimeLE at this
    unfold timeInstLE
    dsimp only
    omega

/-- Witness for the amended C9 statement at concrete inputs. -/
theorem c9_sorted_merge_and_ordered_append_witness :
    List.Pairwise timeInstLE
      (applyOp [{ time := { sec := 5, nsec := 0, zoneOff := 0, isUTC := true }, offset := 0 }]
        (.merge [{ time := { sec := 3, nsec := 0, zoneOff := 0, isUTC := true }, offset := 7 }]))
    ∧ List.Pairwise timeInstLE
        (applyOp [{ time := { sec := 5, nsec := 0, zoneOff := 0, isUTC := true }, offset := 0 }]
          (.update { sec := 9, nsec := 0, zoneOff := 0, isUTC := true } 4)) :=
  ⟨(c9_sorted_merge_and_ordered_append
      [{ time := { sec := 5, nsec := 0, zoneOff := 0, isUTC := true }, offset := 0 }]
      [{ time := { sec := 3, nsec := 0, zoneOff := 0, isUTC := true }, offset := 7 }]
      { sec := 9, nsec := 0, zoneOff := 0, isUTC := true } 4).1,
   (c9_sorted_merge_and_ordered_append
      [{ time := { sec := 5, nsec := 0, zoneOff := 0, isUTC := true }, offset := 0 }]
      [{ time := { sec := 3, nsec := 0, zoneOff := 0, isUTC := true }, offset := 7 }]
      { sec := 9, nsec := 0, zoneOff := 0, isUTC := true } 4).2 (by decide) (by decide)⟩


/-! ### Segment scanner (`index.go`, `scanSegment` with `ReadBoxStructure`)

The box tree is modelled as the visitor observes it: box type, offset, and
the outcome of the lazy payload decode (`none` = `ReadPayload` error).
`readBoxStructureFromInternal` aborts the whole walk when the handler
returns an error (`if _, err := handler(h); err != nil { return err }`),
and `h.Expand()` propagates errors from children, so the walk is
short-circuiting.  `scanSegment` keeps its partial `index` (a named
return) when the walk errors.  The init-track lookup (`findInitTrack`,
outside this repository slice) is passed in as the `resolve` parameter:
`none` models a track id that resolves to no init track. -/

mutual
inductive Box where
  | moof (off : Int) (children : BoxList)
  | traf (children : BoxList)
  | tfhd (payload : Option Nat)
  | tfdt (payload : Option Nat)
  | other

inductive BoxList where
  | nil
  | cons (b : Box) (rest : BoxList)
end

def BoxList.append : BoxList → BoxList → BoxList
  | .nil, l2 => l2
  | .cons b r, l2 => .cons b (r.append l2)

/-- Visitor state of `scanSegment` (index.go:219-226): the current
fragment's file offset, the active time scale, and the accumulated index. -/
structure ScanState where
  moofOffset : Int
  timeScale : Int
  index : List IndexEntry
  deriving DecidableEq, Repr

/-- `time.Time.Add` on the wall clock (nanoseconds, with carry). -/
def gtimeAdd (t : GoTime) (d : Int) : GoTime :=
  let dsec := d.tdiv 1000000000
  let nsec := t.nsec + d.tmod 1000000000
  if nsec ≥ 1000000000 then { t with sec := t.sec + dsec + 1, nsec := nsec - 1000000000 }
  else if nsec < 0 then { t with sec := t.sec + dsec - 1, nsec := nsec + 1000000000 }
  else { t with sec := t.sec + dsec }

/-- The drift-free fragment time (index.go:257-258):
`(offset64/timeScale)*Second + (offset64%timeScale)*Second/timeScale`
in integer (truncating) `time.Duration` arithmetic. -/
def scanDT (offset64 timeScale : Int) : Int :=
  offset64.tdiv timeScale * 1000000000
    + (offset64.tmod timeScale * 1000000000).tdiv timeScale

mutual
/-- One visitor step (the `switch h.BoxInfo.Type.String()` of
index.go:228-264); `some msg` is a non-nil error, which aborts the walk. -/
def walkBox (resolve : Nat → Option Int) (start : GoTime) :
    ScanState → Box → ScanState × Option String
  | s, .moof off ch => walkBoxes resolve start { s with moofOffset := off } ch
  | s, .traf ch => walkBoxes resolve start s ch
  | s, .tfhd p =>
    match p with
    | none => (s, some "payload")
    | some tid =>
      match resolve tid with
      | none => (s, some "invalid track ID")
      | some ts => ({ s with timeScale := ts }, none)
  | s, .tfdt p =>
    match p with
    | none => (s, some "payload")
    | some bmdt =>
      ({ s with index := s.index ++
          [{ time := gtimeAdd start (scanDT (bmdt : Int) s.timeScale),
             offset := s.moofOffset }] }, none)
  | s, .other => (s, none)

/-- Sibling sequence: stops at the first handler error. -/
def walkBoxes (resolve : Nat → Option Int) (start : GoTime) :
    ScanState → BoxList → ScanState × Option String
  | s, .nil => (s, none)
  | s, .cons b rest =>
    match walkBox resolve start s b with
    | (s1, none) => walkBoxes resolve start s1 rest
    | (s1, some e) => (s1, some e)
end

/-- Embedding of `scanSegment` (index.go:207-267) after the segment has
been opened and its init parsed: the entry list (partial on error, as the
Go named return keeps it) and the walk error. -/
def scanSegmentBoxes (resolve : Nat → Option Int) (start : GoTime) (boxes : BoxList) :
    List IndexEntry × Option String :=
  let r := walkBoxes resolve start
    { moofOffset := 0, timeScale := 90000, index := [{ time := start, offset := 0 }] } boxes
  (r.1.index, r.2)
def res7 : Nat → Option Int := fun tid => if tid = 1 then some 90000 else none

def start7 : GoTime := { sec := 100, nsec := 0, zoneOff := 0, isUTC := true }

/-- A segment tree with two fragments: fragment 1 has a malformed
fragment-decode-time box (`tfdt` payload fails to decode), fragment 2 is
fully well-formed. -/
def tree7 : BoxList :=
  .cons (.moof 100 (.cons (.traf (.cons (.tfhd (some 1))
    (.cons (.tfdt none) .nil))) .nil))
  (.cons (.moof 200 (.cons (.traf (.cons (.tfhd (some 1))
    (.cons (.tfdt (some 180000)) .nil))) .nil)) .nil)

/-- Fragment 2 of `tree7` alone. -/
def tree7b : BoxList :=
  .cons (.moof 200 (.cons (.traf (.cons (.tfhd (some 1))
    (.cons (.tfdt (some 180000)) .nil))) .nil)) .nil

/-- C7 counterexample: one malformed fragment among well-formed fragments
DOES abort the scan.  On `tree7` the walk stops at the malformed `tfdt`
with an error and produces only the sentinel — no entry for the
well-formed second fragment — although scanning that second fragment by
itself succeeds and yields its entry.  (The claim says the scan skips the
bad fragment and still indexes the rest.) -/
theorem c7_claim_counterexample :
    (scanSegmentBoxes res7 start7 tree7).2 = some "payload"
    ∧ (scanSegmentBoxes res7 start7 tree7).1 = [{ time := start7, offset := 0 }]
    ∧ scanSegmentBoxes res7 start7 tree7b
        = ([{ time := start7, offset := 0 },
            { time := { sec := 102, nsec := 0, zoneOff := 0, isUTC := true }, offset := 200 }],
           none) := by
  refine ⟨by decide, by decide, by decide⟩

/-- Helper for the amended C7: once the walk of a sibling prefix ends in an
error, appending further siblings does not change the outcome. -/
theorem walkBoxes_append_error (resolve : Nat → Option Int) (start : GoTime) :
    ∀ (s : ScanState) (l1 l2 : BoxList) (e : String),
      (walkBoxes resolve start s l1).2 = some e →
      walkBoxes resolve start s (l1.append l2) = walkBoxes resolve start s l1
  | s, .nil, l2, e, h => by simp [walkBoxes] at h
  | s, .cons b r, l2, e, h => by
    rw [show (BoxList.cons b r).append l2 = .cons b (r.append l2) from rfl]
    unfold walkBoxes
    cases hw : walkBox resolve start s b with
    | mk s1 err =>
      cases err with
      | none =>
        dsimp only
        have h1 : (walkBoxes resolve start s1 r).2 = some e := by
          unfold walkBoxes at h
          rw [hw] at h
          exact h
        exact walkBoxes_append_error resolve start s1 r l2 e h1
      | some e1 => rfl

/-- C7 amended: a malformed fragment-header or fragment-decode-time box,
or an unresolved track id, aborts the scan of that segment at that box —
the error propagates through every enclosing container and no later
sibling contributes entries; the entries accumulated before the error are
returned together with it. -/
theorem c7_scan_error_propagation (resolve : Nat → Option Int) (start : GoTime)
    (s : ScanState) (l1 l2 : BoxList) (e : String)
    (h : (walkBoxes resolve start s l1).2 = some e) :
    walkBoxes resolve start s (l1.append l2) = walkBoxes resolve start s l1
    ∧ walkBox resolve start s (.tfdt none) = (s, some "payload")
    ∧ walkBox resolve start s (.tfhd none) = (s, some "payload")
    ∧ (∀ tid, resolve tid = none →
        walkBox resolve start s (.tfhd (some tid)) = (s, some "invalid track ID")) := by
  refine ⟨walkBoxes_append_error resolve start s l1 l2 e h, rfl, rfl, ?_⟩
  intro tid htid
  unfold walkBox
  dsimp only
  rw [htid]

/-- The first (malformed) fragment of `tree7` alone. -/
def tree7a : BoxList :=
  .cons (.moof 100 (.cons (.traf (.cons (.tfhd (some 1))
    (.cons (.tfdt none) .nil))) .nil)) .nil

def scan7s0 : ScanState :=
  { moofOffset := 0, timeScale := 90000, index := [{ time := start7, offset := 0 }] }

/-- Witness for the amended C7 statement at a concrete erroring prefix. -/
theorem c7_scan_error_propagation_witness :
    (walkBoxes res7 start7 scan7s0 tree7a).2 = some "payload"
    ∧ walkBoxes res7 start7 scan7s0 (tree7a.append tree7b)
        = walkBoxes res7 start7 scan7s0 tree7a :=
  ⟨by decide,
    (c7_scan_error_propagation res7 start7 scan7s0 tree7a tree7b "payload" (by decide)).1⟩


/-! ### Single-flight rebuild (`index.go`, `index.IndexPath`)

`IndexPath` reads the running mark BEFORE taking the lock:

```
_, running := i.running[pathName]   // read, NO lock held
i.Lock()
if running { i.Unlock(); return }   // tests the STALE local
i.running[pathName] = struct{}{}
...
i.Unlock()
```

Two concurrent calls for the same path are modelled as two processes over
shared state; each lock-protected region is one atomic step, the unlocked
map read is its own step.  `running` is the membership of this path in the
running set; `scanned` records that the process reached the segment
scan/load loop (index.go:316-347). -/

/-- Program counter of one `IndexPath` call: `0` = before the unlocked map
read; `1` = read done, before the Lock/test/mark critical section; `2` =
marked running, about to process segments; `3` = returned. -/
structure SFProc where
  pc : Nat
  saved : Bool
  scanned : Bool
  deriving DecidableEq, Repr

structure SFState where
  running : Bool
  a : SFProc
  b : SFProc
  deriving DecidableEq, Repr

def sfInit : SFState :=
  { running := false,
    a := { pc := 0, saved := false, scanned := false },
    b := { pc := 0, saved := false, scanned := false } }

/-- One step of a process: `pc 0` is the unlocked `_, running :=
i.running[pathName]` read; `pc 1` is the atomic `Lock; if running {Unlock;
return}; mark running; Unlock` section — note it tests the stale `saved`;
`pc 2` is the scan/load pass followed by the deferred
`Lock; delete(running); Unlock`. -/
def sfStepProc (running : Bool) (p : SFProc) : SFProc × Bool :=
  match p.pc with
  | 0 => ({ p with saved := running, pc := 1 }, running)
  | 1 =>
    if p.saved then ({ p with pc := 3 }, running)
    else ({ p with pc := 2 }, true)
  | 2 => ({ p with scanned := true, pc := 3 }, false)
  | _ => (p, running)

/-- Scheduler step: `false` runs process `a`, `true` runs process `b`. -/
def sfStep (s : SFState) (who : Bool) : SFState :=
  if who then
    let r := sfStepProc s.running s.b
    { s with b := r.1, running := r.2 }
  else
    let r := sfStepProc s.running s.a
    { s with a := r.1, running := r.2 }

def sfRun (sched : List Bool) : SFState := sched.foldl sfStep sfInit

/-- C4 fails on the code: under the interleaving "A reads, B reads, A
locks+marks+scans, B locks — sees its stale pre-lock read — marks and
scans too", BOTH concurrent rebuild calls perform the scan/load pass.
The running-mark read happens before `i.Lock()`, so the check and the
set do not form one atomic step (the unlocked read is also a data race
on the map in Go's memory model). -/
theorem c4_double_scan_interleaving :
    (sfRun [false, true, false, false, true, true]).a.scanned = true
    ∧ (sfRun [false, true, false, false, true, true]).b.scanned = true := by
  refine ⟨by decide, by decide⟩

end MediaMTX
